import Mathlib

/-!
Shallow embedding of `tcpip/link/channel/channel.go` from polevpn/netstack:
a channel-based data-link endpoint that queues outbound packets in a bounded
Go channel and injects inbound packets into an attached dispatcher.

The Go channel of capacity `size` is modelled as a FIFO list `ch` bounded by
`cap`, together with a flag `chClosed` recording that `close(e.ch)` has been
executed.  Go channel semantics used by the source:
  * a buffered send (`select { case ch <- p: ... default: ... }`) succeeds
    iff the buffer holds fewer than `cap` elements;
  * a receive from a closed channel never blocks: it yields buffered values
    first and then zero values with `ok = false`;
  * in a `select`, the `default` branch runs only when no other case is
    ready, so a receive case on a closed channel is always preferred.
Panics (out-of-bounds slice, method call on a nil interface) are modelled
with `Except Unit` / explicit effect constructors.
-/

namespace Channel

/-- A byte sequence (`buffer.View` / `[]byte` in the source). -/
abbrev View := List Nat

/-- The fields of `tcpip.PacketBuffer` that `channel.go` reads or writes:
its prependable `Header` and its payload `Data`. -/
structure PacketBuffer where
  header : View
  data : View
deriving DecidableEq

/-- `PacketInfo`: an outbound packet record — packet buffer, network-protocol
number and the opaque GSO descriptor (`*stack.GSO`, modelled as an opaque
optional reference). -/
structure PacketInfo where
  pkt : PacketBuffer
  proto : Nat
  gso : Option Nat
deriving DecidableEq

/-- The `*tcpip.Error` values `channel.go` can return. -/
inductive TcpipError where
  | ErrBadLinkEndpoint
deriving DecidableEq

/-- `stack.PacketDescriptor`: header bytes plus offset/size (Go `int`s) into
the flattened payload view. -/
structure PacketDescriptor where
  Hdr : View
  Off : Int
  Size : Int
deriving DecidableEq

/-- The state of a `channel.Endpoint`.  `dispatcher` is the attached
`stack.NetworkDispatcher` (an opaque reference; `none` models the nil
interface), `cap` the channel capacity chosen at construction, `ch` the
buffered contents of the channel, `chClosed` whether `close(e.ch)` ran. -/
structure Endpoint where
  dispatcher : Option Nat
  mtu : Nat
  linkAddr : String
  GSO : Bool
  closed : Bool
  cap : Nat
  ch : List PacketInfo
  chClosed : Bool
deriving DecidableEq

/-- `New(size, mtu, linkAddr)`: fresh endpoint with an empty channel of the
given capacity, `closed = false`, no dispatcher.  Note there is no GSO
parameter: the exported `GSO` field starts at Go's zero value `false`. -/
def New (size : Nat) (mtu : Nat) (linkAddr : String) : Endpoint :=
  { dispatcher := none
    mtu := mtu
    linkAddr := linkAddr
    GSO := false
    closed := false
    cap := size
    ch := []
    chClosed := false }

/-- Assignment to the exported mutable field `e.GSO` (the source exports the
field and `New` never sets it, so this is the only way it can become true). -/
def setGSO (e : Endpoint) (b : Bool) : Endpoint :=
  { e with GSO := b }

/-- Modelled from the spec: the hardware-GSO capability bit
(`stack.CapabilityHardwareGSO`, a distinguished nonzero bit of the
link-endpoint capability set; the `stack` package defining its numeric value
is not under src/). -/
def CapabilityHardwareGSO : Nat := 16

/-- `Capabilities()`: starts from the zero capability set and ors in the
hardware-GSO bit iff `e.GSO` holds at call time. -/
def Capabilities (e : Endpoint) : Nat :=
  if e.GSO then 0 ||| CapabilityHardwareGSO else 0

/-- Whether a capability set contains the hardware-GSO bit. -/
def hasGSOBit (c : Nat) : Prop :=
  c &&& CapabilityHardwareGSO ≠ 0

instance (c : Nat) : Decidable (hasGSOBit c) := by
  unfold hasGSOBit
  infer_instance

/-- `GSOMaxSize()`: constant `1 << 15`. -/
def GSOMaxSize (_e : Endpoint) : Nat := 1 <<< 15

/-- `MaxHeaderLength()`: constant 0. -/
def MaxHeaderLength (_e : Endpoint) : Nat := 0

/-- `MTU()` accessor. -/
def MTU (e : Endpoint) : Nat := e.mtu

/-- `LinkAddress()` accessor. -/
def LinkAddress (e : Endpoint) : String := e.linkAddr

/-- `Attach(dispatcher)`: overwrites the dispatcher reference. -/
def Attach (e : Endpoint) (dispatcher : Nat) : Endpoint :=
  { e with dispatcher := some dispatcher }

/-- `IsAttached()`: true iff a dispatcher reference is present. -/
def IsAttached (e : Endpoint) : Bool := e.dispatcher.isSome

/-- `Close()`: under the exclusive lock, if not closed, close the channel
and set the flag; otherwise do nothing. -/
def Close (e : Endpoint) : Endpoint :=
  if e.closed then e else { e with closed := true, chClosed := true }

/-- Result of one observable `Read()` call: a packet, the
`"link channel closed"` error, or a block of the calling goroutine. -/
inductive ReadResult where
  | packet (p : PacketInfo)
  | chanClosed
  | blocked
deriving DecidableEq

/-- `Read()`: `pkgInfo, ok := <-e.ch`.  A receive on the channel delivers a
buffered packet when one is present (even after close); on an empty closed
channel it returns `ok = false`, which `Read` turns into the
`"link channel closed"` error; on an empty open channel it blocks. -/
def Read (e : Endpoint) : ReadResult × Endpoint :=
  match e.ch with
  | p :: rest => (.packet p, { e with ch := rest })
  | [] => if e.chClosed then (.chanClosed, e) else (.blocked, e)

/-- One pass of `Drain`'s `for { select { case <-e.ch: c++; default: return c } }`,
with explicit fuel.  A receive case is ready whenever the buffer is nonempty
or the channel is closed (a closed channel yields zero values forever), and
`default` is taken only when the receive is not ready; each taken receive,
including a zero-value receive from a closed channel, increments the count.
`none` means the given fuel was exhausted without returning. -/
def drainFuel : Nat → Nat → Endpoint → Option (Nat × Endpoint)
  | 0, _, _ => none
  | fuel + 1, c, e =>
    match e.ch with
    | _ :: rest => drainFuel fuel (c + 1) { e with ch := rest }
    | [] => if e.chClosed then drainFuel fuel (c + 1) e else some (c, e)

/-- `Drain()`: run the drain loop with enough fuel to empty the buffer plus
one final `default` check.  On an endpoint whose channel is not closed this
is exactly the source's terminating behaviour; `none` reports that the loop
did not return within that fuel. -/
def Drain (e : Endpoint) : Option (Nat × Endpoint) :=
  drainFuel (e.ch.length + 1) 0 e

/-- `drainTerminates e`: the drain loop returns within some finite fuel. -/
def drainTerminates (e : Endpoint) : Prop :=
  ∃ fuel c r, drainFuel fuel c e = some r

/-- Observable effect of `InjectLinkAddr` / `InjectInbound`. -/
inductive InjectEffect where
  | noop
  | deliver (dispatcher : Nat) (src : Endpoint) (remote : String) (localAddr : String)
      (protocol : Nat) (pkt : PacketBuffer)
  | nilDispatcherPanic
deriving DecidableEq

/-- `InjectLinkAddr(protocol, remote, pkt)`: under the shared lock, a closed
endpoint returns silently; otherwise it calls
`e.dispatcher.DeliverNetworkPacket(e, remote, "", protocol, pkt)` — a method
call on the nil interface when no dispatcher was ever attached, which
panics. -/
def InjectLinkAddr (e : Endpoint) (protocol : Nat) (remote : String)
    (pkt : PacketBuffer) : InjectEffect :=
  if e.closed then .noop
  else
    match e.dispatcher with
    | none => .nilDispatcherPanic
    | some d => .deliver d e remote "" protocol pkt

/-- `InjectInbound(protocol, pkt)`: delegates to `InjectLinkAddr` with an
empty remote link address. -/
def InjectInbound (e : Endpoint) (protocol : Nat) (pkt : PacketBuffer) :
    InjectEffect :=
  InjectLinkAddr e protocol "" pkt

/-- `WritePacket(_, gso, protocol, pkt)`: closed endpoints fail with
`ErrBadLinkEndpoint`; otherwise build the record and try a non-blocking
send, silently dropping when the buffer is full. -/
def WritePacket (e : Endpoint) (gso : Option Nat) (protocol : Nat)
    (pkt : PacketBuffer) : Option TcpipError × Endpoint :=
  if e.closed then (some .ErrBadLinkEndpoint, e)
  else
    let p : PacketInfo := { pkt := pkt, proto := protocol, gso := gso }
    if e.ch.length < e.cap then (none, { e with ch := e.ch ++ [p] })
    else (none, e)

/-- `WriteRawPacket(vv)`: like `WritePacket` but the record carries only the
raw data, protocol 0 and no GSO descriptor. -/
def WriteRawPacket (e : Endpoint) (vv : View) : Option TcpipError × Endpoint :=
  if e.closed then (some .ErrBadLinkEndpoint, e)
  else
    let p : PacketInfo := { pkt := { header := [], data := vv }, proto := 0, gso := none }
    if e.ch.length < e.cap then (none, { e with ch := e.ch ++ [p] })
    else (none, e)

/-- The Go slice expression `payloadView[off : off+size]`: defined when
`0 ≤ off ≤ off+size ≤ len(payloadView)`, a bounds-check panic otherwise. -/
def sliceView (payload : View) (off size : Int) : Except Unit View :=
  if 0 ≤ off ∧ off ≤ off + size ∧ off + size ≤ (payload.length : Int)
  then .ok ((payload.drop off.toNat).take size.toNat)
  else .error ()

/-- The in-bounds condition under which `sliceView` does not panic. -/
def ValidDesc (payload : View) (hdr : PacketDescriptor) : Prop :=
  0 ≤ hdr.Off ∧ hdr.Off ≤ hdr.Off + hdr.Size ∧
    hdr.Off + hdr.Size ≤ (payload.length : Int)

instance (payload : View) (hdr : PacketDescriptor) : Decidable (ValidDesc payload hdr) := by
  unfold ValidDesc
  infer_instance

/-- The packet record `WritePackets` builds for one descriptor: header bytes
from the descriptor, data the in-bounds slice of the flattened payload. -/
def mkPkt (payload : View) (protocol : Nat) (gso : Option Nat)
    (hdr : PacketDescriptor) : PacketInfo :=
  { pkt := { header := hdr.Hdr
             data := (payload.drop hdr.Off.toNat).take hdr.Size.toNat }
    proto := protocol
    gso := gso }

/-- The `packetLoop` of `WritePackets`: for each descriptor, slice the
payload (possibly panicking), build the record, try a non-blocking send;
`break packetLoop` at the first full buffer.  Returns the count of records
enqueued and the updated endpoint, or `Except.error ()` for a panic. -/
def wpLoop (payload : View) (protocol : Nat) (gso : Option Nat) :
    List PacketDescriptor → Nat → Endpoint → Except Unit (Nat × Endpoint)
  | [], n, e => .ok (n, e)
  | hdr :: rest, n, e =>
    match sliceView payload hdr.Off hdr.Size with
    | .error _ => .error ()
    | .ok v =>
      let p : PacketInfo := { pkt := { header := hdr.Hdr, data := v }
                              proto := protocol
                              gso := gso }
      if e.ch.length < e.cap then
        wpLoop payload protocol gso rest (n + 1) { e with ch := e.ch ++ [p] }
      else .ok (n, e)

/-- `WritePackets(_, gso, hdrs, payload, protocol)`: closed endpoints fail
with `(0, ErrBadLinkEndpoint)`; otherwise run the packet loop over the
flattened payload and return the successful count with no error. -/
def WritePackets (e : Endpoint) (gso : Option Nat) (hdrs : List PacketDescriptor)
    (payload : View) (protocol : Nat) :
    Except Unit (Nat × Option TcpipError × Endpoint) :=
  if e.closed then .ok (0, some .ErrBadLinkEndpoint, e)
  else (wpLoop payload protocol gso hdrs 0 e).map fun r => (r.1, none, r.2)

/-- A sequence of successive `WritePacket` calls, one per listed
(gso, protocol, packet) argument triple, threading the endpoint state. -/
def writeSeq (e : Endpoint) : List (Option Nat × Nat × PacketBuffer) → Endpoint
  | [] => e
  | (g, pr, pk) :: rest => writeSeq (WritePacket e g pr pk).2 rest

/-! ### Helper lemmas -/

theorem Close_closed (e : Endpoint) : (Close e).closed = true := by
  unfold Close; split <;> simp_all

theorem Close_ch (e : Endpoint) : (Close e).ch = e.ch := by
  unfold Close; split <;> rfl

theorem Close_chClosed (e : Endpoint) (hinv : e.chClosed = e.closed) :
    (Close e).chClosed = true := by
  unfold Close; split <;> simp_all

theorem Close_of_closed (e : Endpoint) (h : e.closed = true) : Close e = e := by
  simp [Close, h]

/-- On a closed channel the receive case of `Drain`'s select is always
ready, so the loop never takes the `default` exit: no amount of fuel makes
it return. -/
theorem drainFuel_closed (fuel : Nat) :
    ∀ (c : Nat) (e : Endpoint), e.chClosed = true → drainFuel fuel c e = none := by
  induction fuel with
  | zero => intro c e _; rfl
  | succ fuel ih =>
    intro c e h
    cases hch : e.ch with
    | nil =>
      simp only [drainFuel, hch, h, if_true]
      exact ih (c + 1) e h
    | cons p rest =>
      simp only [drainFuel, hch]
      exact ih (c + 1) { e with ch := rest } (by simpa using h)

/-- On an open channel the drain loop removes every buffered packet and then
takes the `default` exit, returning the running count plus the number of
buffered packets. -/
theorem drainFuel_open (fuel : Nat) :
    ∀ (c : Nat) (e : Endpoint), e.chClosed = false → e.ch.length < fuel →
      drainFuel fuel c e = some (c + e.ch.length, { e with ch := [] }) := by
  induction fuel with
  | zero => intro c e _ hlt; exact absurd hlt (by omega)
  | succ fuel ih =>
    intro c e h hlt
    cases hch : e.ch with
    | nil =>
      simp only [drainFuel, hch, h, if_false, List.length_nil, Nat.add_zero]
      cases e
      simp_all
    | cons p rest =>
      have hrec := ih (c + 1) { e with ch := rest } (by simpa using h)
        (by simp only [hch, List.length_cons] at hlt; simpa using Nat.lt_of_succ_lt_succ hlt)
      simp only [drainFuel, hch, hrec, hch]
      congr 2
      simp [hch]
      omega

theorem Drain_open (e : Endpoint) (h : e.chClosed = false) :
    Drain e = some (e.ch.length, { e with ch := [] }) := by
  simpa using drainFuel_open (e.ch.length + 1) 0 e h (by omega)

theorem drainFuel_closed_pres (fuel : Nat) :
    ∀ (c : Nat) (e : Endpoint) (m : Nat) (r : Endpoint),
      drainFuel fuel c e = some (m, r) → r.closed = e.closed := by
  induction fuel with
  | zero => intro c e m r h; exact absurd h (by simp [drainFuel])
  | succ fuel ih =>
    intro c e m r h
    cases hch : e.ch with
    | nil =>
      simp only [drainFuel, hch] at h
      split at h
      · exact ih (c + 1) e m r h
      · simp only [Option.some.injEq, Prod.mk.injEq] at h
        obtain ⟨-, rfl⟩ := h
        rfl
    | cons p rest =>
      simp only [drainFuel, hch] at h
      simpa using ih (c + 1) { e with ch := rest } m r h

theorem wpLoop_closed_pres (hdrs : List PacketDescriptor) :
    ∀ (payload : View) (protocol : Nat) (gso : Option Nat) (n : Nat) (e : Endpoint)
      (m : Nat) (r : Endpoint),
      wpLoop payload protocol gso hdrs n e = .ok (m, r) → r.closed = e.closed := by
  induction hdrs with
  | nil =>
    intro payload protocol gso n e m r h
    simp only [wpLoop, Except.ok.injEq, Prod.mk.injEq] at h
    obtain ⟨-, rfl⟩ := h
    rfl
  | cons hdr rest ih =>
    intro payload protocol gso n e m r h
    simp only [wpLoop] at h
    cases hs : sliceView payload hdr.Off hdr.Size with
    | error u => simp [hs] at h
    | ok v =>
      simp only [hs] at h
      split at h
      · simpa using ih payload protocol gso (n + 1) _ m r h
      · simp only [Except.ok.injEq, Prod.mk.injEq] at h
        obtain ⟨-, rfl⟩ := h
        rfl

/-- The packet loop enqueues records for the descriptors in order until the
buffer fills: it succeeds on exactly `min hdrs.length (cap - length ch)` of
them, appending the records for the first that many descriptors. -/
theorem wpLoop_spec (hdrs : List PacketDescriptor) :
    ∀ (payload : View) (protocol : Nat) (gso : Option Nat) (n : Nat) (e : Endpoint),
      (∀ hdr ∈ hdrs, ValidDesc payload hdr) →
      wpLoop payload protocol gso hdrs n e =
        .ok (n + min hdrs.length (e.cap - e.ch.length),
          { e with ch := (e.ch ++
              (hdrs.take (min hdrs.length (e.cap - e.ch.length))).map
                (mkPkt payload protocol gso)) }) := by
  induction hdrs with
  | nil =>
    intro payload protocol gso n e hb
    simp [wpLoop]
  | cons hdr rest ih =>
    intro payload protocol gso n e hb
    have hv : ValidDesc payload hdr := hb hdr (by simp)
    have hs : sliceView payload hdr.Off hdr.Size =
        .ok ((payload.drop hdr.Off.toNat).take hdr.Size.toNat) := by
      unfold sliceView
      exact if_pos hv
    simp only [wpLoop, hs]
    by_cases hlt : e.ch.length < e.cap
    · rw [if_pos hlt]
      rw [ih payload protocol gso (n + 1) _ (fun h hm => hb h (by simp [hm]))]
      have hm : min (hdr :: rest).length (e.cap - e.ch.length)
          = min rest.length (e.cap - (e.ch.length + 1)) + 1 := by
        simp only [List.length_cons]
        omega
      rw [hm]
      simp only [Except.ok.injEq, Prod.mk.injEq, List.length_append, List.length_cons,
        List.length_nil, Nat.zero_add, List.take_succ_cons, List.map_cons, mkPkt]
      constructor
      · omega
      · simp [List.append_assoc]
    · rw [if_neg hlt]
      have h0 : e.cap - e.ch.length = 0 := by omega
      simp [h0]

/-- A sequence of `WritePacket` calls on an open endpoint keeps it open,
never touches the channel-closed flag or the capacity, and grows the buffer
to `min (length ch + number of writes) cap`. -/
theorem writeSeq_spec (ws : List (Option Nat × Nat × PacketBuffer)) :
    ∀ (e : Endpoint), e.closed = false → e.ch.length ≤ e.cap →
      (writeSeq e ws).closed = false ∧
      (writeSeq e ws).chClosed = e.chClosed ∧
      (writeSeq e ws).cap = e.cap ∧
      (writeSeq e ws).ch.length = min (e.ch.length + ws.length) e.cap := by
  induction ws with
  | nil =>
    intro e h hle
    refine ⟨h, rfl, rfl, ?_⟩
    simp only [writeSeq, List.length_nil, Nat.add_zero]
    omega
  | cons w rest ih =>
    intro e h hle
    obtain ⟨g, pr, pk⟩ := w
    rw [writeSeq]
    by_cases hlt : e.ch.length < e.cap
    · have hw : (WritePacket e g pr pk).2 =
          { e with ch := e.ch ++ [{ pkt := pk, proto := pr, gso := g }] } := by
        simp [WritePacket, h, hlt]
      rw [hw]
      obtain ⟨a, b, c, d⟩ := ih { e with ch := e.ch ++ [{ pkt := pk, proto := pr, gso := g }] }
        (by simpa using h) (by simp; omega)
      refine ⟨a, by simpa using b, by simpa using c, ?_⟩
      rw [d]
      simp only [List.length_append, List.length_cons, List.length_nil, Nat.zero_add]
      congr 1
      omega
    · have hw : (WritePacket e g pr pk).2 = e := by
        simp [WritePacket, h, hlt]
      rw [hw]
      obtain ⟨a, b, c, d⟩ := ih e h hle
      refine ⟨a, b, c, ?_⟩
      rw [d]
      simp only [List.length_cons]
      omega

/-- The channel/flag invariant `chClosed = closed` assumed by the claims
about closed endpoints: it holds at construction and is preserved by every
state-transforming operation (`close(e.ch)` and `e.closed = true` are
executed together under the exclusive lock). -/
theorem chClosed_eq_closed_invariant (e : Endpoint) (size mtu : Nat) (addr : String)
    (gso : Option Nat) (protocol : Nat) (pkt : PacketBuffer) (vv : View) (d : Nat)
    (hinv : e.chClosed = e.closed) :
    (New size mtu addr).chClosed = (New size mtu addr).closed ∧
    (Close e).chClosed = (Close e).closed ∧
    (WritePacket e gso protocol pkt).2.chClosed = (WritePacket e gso protocol pkt).2.closed ∧
    (WriteRawPacket e vv).2.chClosed = (WriteRawPacket e vv).2.closed ∧
    (Attach e d).chClosed = (Attach e d).closed ∧
    (Read e).2.chClosed = (Read e).2.closed := by
  refine ⟨rfl, ?_, ?_, ?_, hinv, ?_⟩
  · unfold Close
    split <;> simp_all
  · unfold WritePacket
    split
    · exact hinv
    · dsimp only
      split <;> simpa using hinv
  · unfold WriteRawPacket
    split
    · exact hinv
    · dsimp only
      split <;> simpa using hinv
  · unfold Read
    cases e.ch
    · dsimp only
      split <;> exact hinv
    · simpa using hinv

/-! ### Claims -/

/-- C1: for every endpoint on which `Close` has been called, `WritePacket`,
`WritePackets` and `WriteRawPacket` all return the closed-endpoint error
`ErrBadLinkEndpoint` and enqueue nothing (the state is unchanged), and
`Read`, once the queue is empty, returns the `"link channel closed"` error
instead of a record.  (`e.chClosed = e.closed` is the invariant relating the
flag and the Go channel, established by `New` and preserved by every
operation.) -/
theorem claim_C1 (e : Endpoint) (gso : Option Nat) (protocol : Nat)
    (pkt : PacketBuffer) (hdrs : List PacketDescriptor) (payload : View) (vv : View)
    (hinv : e.chClosed = e.closed) :
    WritePacket (Close e) gso protocol pkt = (some .ErrBadLinkEndpoint, Close e) ∧
    WritePackets (Close e) gso hdrs payload protocol
      = .ok (0, some .ErrBadLinkEndpoint, Close e) ∧
    WriteRawPacket (Close e) vv = (some .ErrBadLinkEndpoint, Close e) ∧
    ((Close e).ch = [] → Read (Close e) = (.chanClosed, Close e)) := by
  have h1 := Close_closed e
  have h2 := Close_chClosed e hinv
  refine ⟨?_, ?_, ?_, ?_⟩
  · simp [WritePacket, h1]
  · simp [WritePackets, h1]
  · simp [WriteRawPacket, h1]
  · intro hch
    simp [Read, hch, h2]

theorem claim_C1_witness :
    WritePacket (Close (New 1 9 "a")) none 7 ⟨[], [1]⟩
        = (some .ErrBadLinkEndpoint, Close (New 1 9 "a")) ∧
    WritePackets (Close (New 1 9 "a")) none [] [] 7
        = .ok (0, some .ErrBadLinkEndpoint, Close (New 1 9 "a")) ∧
    WriteRawPacket (Close (New 1 9 "a")) [2]
        = (some .ErrBadLinkEndpoint, Close (New 1 9 "a")) ∧
    Read (Close (New 1 9 "a")) = (.chanClosed, Close (New 1 9 "a")) := by
  obtain ⟨h1, h2, h3, h4⟩ := claim_C1 (New 1 9 "a") none 7 ⟨[], [1]⟩ [] [] [2] rfl
  exact ⟨h1, h2, h3, h4 rfl⟩

/-- C2: on an open endpoint whose buffer has free room for only
`M = cap - length ch` records, fewer than the number `K` of descriptors,
`WritePackets` returns `successCount = M` with no error and enqueues exactly
the records built from the first `M` descriptors, in their given order,
stopping at the first enqueue failure. -/
theorem claim_C2 (e : Endpoint) (gso : Option Nat) (hdrs : List PacketDescriptor)
    (payload : View) (protocol : Nat)
    (hopen : e.closed = false)
    (hb : ∀ hdr ∈ hdrs, ValidDesc payload hdr)
    (hM : e.cap - e.ch.length < hdrs.length) :
    WritePackets e gso hdrs payload protocol =
      .ok (e.cap - e.ch.length, none,
        { e with ch := (e.ch ++
            (hdrs.take (e.cap - e.ch.length)).map (mkPkt payload protocol gso)) }) := by
  have hmin : min hdrs.length (e.cap - e.ch.length) = e.cap - e.ch.length := by omega
  simp only [WritePackets, hopen, Bool.false_eq_true, if_false]
  rw [wpLoop_spec hdrs payload protocol gso 0 e hb, hmin]
  simp [Except.map, hopen]

theorem claim_C2_witness :
    WritePackets (New 2 9 "a") none
        [⟨[1], 0, 1⟩, ⟨[2], 1, 1⟩, ⟨[3], 2, 1⟩] [10, 11, 12] 7
      = .ok (2, none,
          { New 2 9 "a" with ch :=
              [⟨⟨[1], [10]⟩, 7, none⟩, ⟨⟨[2], [11]⟩, 7, none⟩] }) := by
  have h := claim_C2 (New 2 9 "a") none
      [⟨[1], 0, 1⟩, ⟨[2], 1, 1⟩, ⟨[3], 2, 1⟩] [10, 11, 12] 7 rfl (by decide) (by decide)
  exact h.trans (by rfl)

/-- C3: on an open endpoint whose buffer is at capacity, `WritePacket` and
`WriteRawPacket` return no error, do not block, and leave the state (and in
particular the queue contents) unchanged: the frame is silently dropped. -/
theorem claim_C3 (e : Endpoint) (gso : Option Nat) (protocol : Nat)
    (pkt : PacketBuffer) (vv : View)
    (hopen : e.closed = false) (hfull : e.ch.length = e.cap) :
    WritePacket e gso protocol pkt = (none, e) ∧
    WriteRawPacket e vv = (none, e) := by
  constructor <;> simp [WritePacket, WriteRawPacket, hopen, hfull]

theorem claim_C3_witness :
    WritePacket { New 1 9 "a" with ch := [⟨⟨[], []⟩, 0, none⟩] } none 7 ⟨[], [1]⟩
        = (none, { New 1 9 "a" with ch := [⟨⟨[], []⟩, 0, none⟩] }) ∧
    WriteRawPacket { New 1 9 "a" with ch := [⟨⟨[], []⟩, 0, none⟩] } [2]
        = (none, { New 1 9 "a" with ch := [⟨⟨[], []⟩, 0, none⟩] }) :=
  claim_C3 { New 1 9 "a" with ch := [⟨⟨[], []⟩, 0, none⟩] } none 7 ⟨[], [1]⟩ [2] rfl rfl

/-- C4: starting from a freshly constructed endpoint of capacity `C`, after
any sequence of `N` `WritePacket` calls (each a total, non-blocking
function), `Drain` terminates and reports exactly `N` when `N ≤ C` and
exactly `C` when `N > C`. -/
theorem claim_C4 (C mtu : Nat) (addr : String)
    (ws : List (Option Nat × Nat × PacketBuffer)) :
    (ws.length ≤ C → Drain (writeSeq (New C mtu addr) ws)
        = some (ws.length, { writeSeq (New C mtu addr) ws with ch := [] })) ∧
    (C < ws.length → Drain (writeSeq (New C mtu addr) ws)
        = some (C, { writeSeq (New C mtu addr) ws with ch := [] })) := by
  obtain ⟨h1, h2, h3, h4⟩ := writeSeq_spec ws (New C mtu addr) rfl (Nat.zero_le C)
  have hD := Drain_open (writeSeq (New C mtu addr) ws) (by rw [h2]; rfl)
  rw [h4] at hD
  have hlen : (New C mtu addr).ch.length = 0 := rfl
  have hcap : (New C mtu addr).cap = C := rfl
  rw [hlen, hcap, Nat.zero_add] at hD
  constructor
  · intro hle
    have hmin : min ws.length C = ws.length := by omega
    rw [hD, hmin]
  · intro hgt
    have hmin : min ws.length C = C := by omega
    rw [hD, hmin]

theorem claim_C4_witness :
    Drain (writeSeq (New 5 9 "a") [(none, 7, ⟨[], [1]⟩), (none, 7, ⟨[], [2]⟩)])
        = some (2, { writeSeq (New 5 9 "a") [(none, 7, ⟨[], [1]⟩), (none, 7, ⟨[], [2]⟩)]
                      with ch := [] }) ∧
    Drain (writeSeq (New 1 9 "a") [(none, 7, ⟨[], [1]⟩), (none, 7, ⟨[], [2]⟩)])
        = some (1, { writeSeq (New 1 9 "a") [(none, 7, ⟨[], [1]⟩), (none, 7, ⟨[], [2]⟩)]
                      with ch := [] }) :=
  ⟨(claim_C4 5 9 "a" [(none, 7, ⟨[], [1]⟩), (none, 7, ⟨[], [2]⟩)]).1 (by decide),
   (claim_C4 1 9 "a" [(none, 7, ⟨[], [1]⟩), (none, 7, ⟨[], [2]⟩)]).2 (by decide)⟩

/-- C5 counterexample: no endpoint is ever constructed with GSO enabled —
`New` has no GSO parameter and always initializes the exported `GSO` field
to `false` — yet after a plain assignment to that exported field the very
same constructed endpoint reports the hardware-GSO capability bit.  So
"Capabilities reports the GSO bit iff the endpoint was constructed with the
GSO flag enabled, the flag being fixed at construction and immutable" fails
at this input. -/
theorem claim_C5_counterexample :
    (New 2 1500 "aa:bb").GSO = false ∧
    hasGSOBit (Capabilities (setGSO (New 2 1500 "aa:bb") true)) := by
  constructor
  · rfl
  · decide

/-- C5 (amended): `Capabilities()` reports the hardware-GSO bit iff the
exported `GSO` field is true at call time; `New` takes no GSO argument and
initializes the field to `false`, and the field may be reassigned
afterwards; `MaxHeaderLength()` is always 0 and `GSOMaxSize()` is always
32768. -/
theorem claim_C5_amended (e : Endpoint) (size mtu : Nat) (addr : String) (b : Bool) :
    (hasGSOBit (Capabilities e) ↔ e.GSO = true) ∧
    (New size mtu addr).GSO = false ∧
    (setGSO e b).GSO = b ∧
    MaxHeaderLength e = 0 ∧
    GSOMaxSize e = 32768 := by
  refine ⟨?_, rfl, rfl, rfl, rfl⟩
  cases hg : e.GSO
  · simp only [Capabilities, hg, Bool.false_eq_true, if_false]
    simp [hasGSOBit]
  · simp only [Capabilities, hg, if_true]
    simp only [hasGSOBit]
    decide

/-- C6: the closed flag is monotonic and `Close` idempotent: `Close` yields
a closed endpoint, closing twice equals closing once, a `Close` on an
already-closed endpoint is a complete no-op, the first transition also
closes the channel for reading, and no other operation (`WritePacket`,
`WriteRawPacket`, `WritePackets`, `Attach`, `Read`, `Drain`) ever changes
the closed flag. -/
theorem claim_C6 (e : Endpoint) (gso : Option Nat) (protocol : Nat)
    (pkt : PacketBuffer) (vv : View) (hdrs : List PacketDescriptor)
    (payload : View) (d : Nat) :
    (Close e).closed = true ∧
    Close (Close e) = Close e ∧
    (e.closed = true → Close e = e) ∧
    (e.closed = false → (Close e).closed = true ∧ (Close e).chClosed = true) ∧
    (WritePacket e gso protocol pkt).2.closed = e.closed ∧
    (WriteRawPacket e vv).2.closed = e.closed ∧
    (∀ n err r, WritePackets e gso hdrs payload protocol = .ok (n, err, r) →
      r.closed = e.closed) ∧
    (Attach e d).closed = e.closed ∧
    (Read e).2.closed = e.closed ∧
    (∀ c r, Drain e = some (c, r) → r.closed = e.closed) := by
  refine ⟨Close_closed e, Close_of_closed _ (Close_closed e), Close_of_closed e,
    ?_, ?_, ?_, ?_, rfl, ?_, ?_⟩
  · intro h
    exact ⟨Close_closed e, by simp [Close, h]⟩
  · unfold WritePacket
    split
    · rfl
    · dsimp only
      split <;> rfl
  · unfold WriteRawPacket
    split
    · rfl
    · dsimp only
      split <;> rfl
  · intro n err r h
    unfold WritePackets at h
    split at h
    · simp only [Except.ok.injEq, Prod.mk.injEq] at h
      obtain ⟨-, -, rfl⟩ := h
      rfl
    · cases hw : wpLoop payload protocol gso hdrs 0 e with
      | error u => simp [hw, Except.map] at h
      | ok v =>
        simp only [hw, Except.map, Except.ok.injEq, Prod.mk.injEq] at h
        obtain ⟨-, -, rfl⟩ := h
        exact wpLoop_closed_pres hdrs payload protocol gso 0 e v.1 v.2 (by rw [hw])
  · unfold Read
    cases hch : e.ch
    · dsimp only
      split <;> rfl
    · rfl
  · intro c r h
    exact drainFuel_closed_pres (e.ch.length + 1) 0 e c r h

theorem claim_C6_witness :
    ((Close (New 1 9 "a")).closed = true ∧ (Close (New 1 9 "a")).chClosed = true) ∧
    Close (Close (New 1 9 "a")) = Close (New 1 9 "a") ∧
    (New 1 9 "a").closed = (New 1 9 "a").closed ∧
    (New 1 9 "a").closed = (New 1 9 "a").closed := by
  have h₁ := claim_C6 (New 1 9 "a") none 7 ⟨[], [1]⟩ [2] [] [] 3
  have h₂ := claim_C6 (Close (New 1 9 "a")) none 7 ⟨[], [1]⟩ [2] [] [] 3
  exact ⟨h₁.2.2.2.1 rfl, h₂.2.2.1 rfl,
    h₁.2.2.2.2.2.2.1 0 none (New 1 9 "a") rfl,
    h₁.2.2.2.2.2.2.2.2.2 0 (New 1 9 "a") rfl⟩

/-- C7: `InjectInbound` is exactly `InjectLinkAddr` with an empty remote
address; on an open endpoint with an attached dispatcher, `InjectLinkAddr`
synchronously delivers to that dispatcher with this endpoint as source, the
given remote address, an empty local address, the protocol and the frame;
on a closed endpoint it is a silent no-op that never reaches the
dispatcher. -/
theorem claim_C7 (e : Endpoint) (protocol : Nat) (remote : String)
    (pkt : PacketBuffer) (d : Nat) :
    InjectInbound e protocol pkt = InjectLinkAddr e protocol "" pkt ∧
    (e.closed = false → e.dispatcher = some d →
      InjectLinkAddr e protocol remote pkt = .deliver d e remote "" protocol pkt) ∧
    (e.closed = true → InjectLinkAddr e protocol remote pkt = .noop) := by
  refine ⟨rfl, ?_, ?_⟩
  · intro h hd
    simp [InjectLinkAddr, h, hd]
  · intro h
    simp [InjectLinkAddr, h]

theorem claim_C7_witness :
    InjectLinkAddr (Attach (New 1 9 "a") 5) 7 "r" ⟨[], [1]⟩
        = .deliver 5 (Attach (New 1 9 "a") 5) "r" "" 7 ⟨[], [1]⟩ ∧
    InjectLinkAddr (Close (Attach (New 1 9 "a") 5)) 7 "r" ⟨[], [1]⟩ = .noop :=
  ⟨(claim_C7 (Attach (New 1 9 "a") 5) 7 "r" ⟨[], [1]⟩ 5).2.1 rfl rfl,
   (claim_C7 (Close (Attach (New 1 9 "a") 5)) 7 "r" ⟨[], [1]⟩ 5).2.2 rfl⟩

/-- C8 counterexample: on a concrete endpoint that has been closed, the
drain loop never returns no matter how much fuel it is given — receiving
from the closed channel is always ready, so the `select` never takes its
`default` exit.  This refutes "Drain terminates for every reachable
endpoint state, including after Close". -/
theorem claim_C8_counterexample : ¬ drainTerminates (Close (New 1 1500 "aa:bb")) := by
  rintro ⟨fuel, c, r, h⟩
  rw [drainFuel_closed fuel c (Close (New 1 1500 "aa:bb")) rfl] at h
  exact Option.noConfusion h

/-- C8 (amended): `Drain` terminates on every endpoint whose channel has
not been closed, returning the number of currently queued records; on a
closed endpoint the receive case of its `select` is always ready, the loop
never reaches the `default` exit, and `Drain` does not terminate (no fuel
suffices). -/
theorem claim_C8_amended (e : Endpoint) (fuel c : Nat) :
    (e.chClosed = false → Drain e = some (e.ch.length, { e with ch := [] })) ∧
    (e.chClosed = true → drainFuel fuel c e = none) :=
  ⟨fun h => Drain_open e h, fun h => drainFuel_closed fuel c e h⟩

theorem claim_C8_witness :
    Drain (New 1 9 "a") = some ((New 1 9 "a").ch.length, { New 1 9 "a" with ch := [] }) ∧
    drainFuel 5 0 (Close (New 1 9 "a")) = none :=
  ⟨(claim_C8_amended (New 1 9 "a") 5 0).1 rfl,
   (claim_C8_amended (Close (New 1 9 "a")) 5 0).2 rfl⟩

/-- C9: the slice `payloadView[off : off+size]` in `WritePackets` carries no
bounds check, so the operation is safe only under the precondition
`0 ≤ Off ∧ Off + Size ≤ length payload`: any descriptor violating that
bound (here reached as the first descriptor of an open endpoint's batch)
makes the operation panic instead of returning an error. -/
theorem claim_C9 (e : Endpoint) (gso : Option Nat) (protocol : Nat)
    (payload : View) (hdr : PacketDescriptor) (rest : List PacketDescriptor)
    (hopen : e.closed = false)
    (hviol : ¬(0 ≤ hdr.Off ∧ hdr.Off + hdr.Size ≤ (payload.length : Int))) :
    WritePackets e gso (hdr :: rest) payload protocol = .error () := by
  have hs : sliceView payload hdr.Off hdr.Size = .error () := by
    unfold sliceView
    rw [if_neg]
    rintro ⟨a, b, c⟩
    exact hviol ⟨a, c⟩
  simp [WritePackets, hopen, wpLoop, hs, Except.map]

theorem claim_C9_witness :
    WritePackets (New 4 9 "a") none [⟨[], 0, 5⟩] [1, 2, 3] 7 = .error () :=
  claim_C9 (New 4 9 "a") none 7 [1, 2, 3] ⟨[], 0, 5⟩ [] rfl (by decide)

/-- C10: on an open endpoint with no dispatcher attached, `InjectInbound`
and `InjectLinkAddr` call a method on the nil dispatcher interface and
crash; on a closed endpoint both return safely without touching the
dispatcher. -/
theorem claim_C10 (e : Endpoint) (protocol : Nat) (remote : String)
    (pkt : PacketBuffer) :
    (e.closed = false → IsAttached e = false →
      InjectInbound e protocol pkt = .nilDispatcherPanic ∧
      InjectLinkAddr e protocol remote pkt = .nilDispatcherPanic) ∧
    (e.closed = true →
      InjectInbound e protocol pkt = .noop ∧
      InjectLinkAddr e protocol remote pkt = .noop) := by
  constructor
  · intro h ha
    have hd : e.dispatcher = none := by
      cases hdd : e.dispatcher
      · rfl
      · simp [IsAttached, hdd] at ha
    constructor <;> simp [InjectInbound, InjectLinkAddr, h, hd]
  · intro h
    constructor <;> simp [InjectInbound, InjectLinkAddr, h]

theorem claim_C10_witness :
    (InjectInbound (New 1 9 "a") 7 ⟨[], [1]⟩ = .nilDispatcherPanic ∧
     InjectLinkAddr (New 1 9 "a") 7 "r" ⟨[], [1]⟩ = .nilDispatcherPanic) ∧
    (InjectInbound (Close (New 1 9 "a")) 7 ⟨[], [1]⟩ = .noop ∧
     InjectLinkAddr (Close (New 1 9 "a")) 7 "r" ⟨[], [1]⟩ = .noop) :=
  ⟨(claim_C10 (New 1 9 "a") 7 "r" ⟨[], [1]⟩).1 rfl rfl,
   (claim_C10 (Close (New 1 9 "a")) 7 "r" ⟨[], [1]⟩).2 rfl⟩

end Channel
